import Mathlib

/-!
# gpufort: the generated vector-add launch stub and the C++/Fortran forwarders

Shallow embedding of

* `examples/gpufort_arrays/vector-add/main-kernels.hip.cpp`
  (`vecadd_kernel`, `launch_vecadd_kernel_auto_`), and
* `studies/gfortran/interoperability/bindcpp.cpp`
  (`mysubroutine2`, `myfunction2`).

Conventions of the embedding.

* Device memory is one flat address space `Int → α`, addressed in units of one
  element.  An array view holds the address of its first element, so two views
  may overlap, exactly as two `array1` objects built from raw pointers may.
* The element type `float` is abstracted to any type `α` with `+` and `*`; the
  theorems hold for every such `α` ("elements taken as exact numbers").
* `threadIdx.x`, `blockIdx.x`, `blockDim.x` are 32-bit unsigned; the arithmetic
  of line 26 is carried out modulo `2^32` and the result is converted to the
  32-bit signed `int i`.
* The signed `int` arithmetic of the launch stub (lines 41-42) and of the
  helpers `loop_cond` and `divideAndRoundUp` is exact integer arithmetic; that
  an extent is an `int` appears in the theorems as the hypothesis `N < 2^31`.
* Every element access appends an entry to a trace, so that statements of the
  form "no access is performed" or "every access is in range" are statements
  about the code and not about a separate description of it.
* A launch runs the kernel body once for every thread of every block.  The
  body is a step on the device state; `hipLaunchKernelGGL` runs the steps in
  block-major order and `runThreads` runs them in any given order.  Guarantees
  of a launch are proved for every permutation of the launched grid.
* The body of `divideAndRoundUp` is not in the sources.  Where a statement
  concerns the extent `2^31 - 1`, for which the formula `N + B - 1` no longer
  fits an `int`, it is made for every number of blocks, so that it does not
  depend on what the macro yields there.
-/

namespace gpufort

/-! ## Machine integers -/

/-- Reduction of a natural number to a 32-bit unsigned value. -/
def u32 (n : Nat) : Nat := n % 2 ^ 32

/-- Conversion of a 32-bit unsigned value to `int` (two's complement). -/
def int_of_u32 (n : Nat) : Int :=
  if n < 2 ^ 31 then (n : Int) else (n : Int) - 2 ^ 32

/-- Conversion of an `int` to a 32-bit unsigned value (as done by `dim3`). -/
def u32_of_int (z : Int) : Nat := (z % 2 ^ 32).toNat

/-! ## Array view -/

/-- Error taxonomy of the array view (spec, section 7). -/
inductive ArrayError where
  | InvalidShape
  | OutOfRange
  | IndexOutOfBounds
  deriving DecidableEq, Repr

/-- Modelled from the spec: `gpufort::array1` of `gpufort_arrays.h`, which is
not among the sources.  A rank-1, non-owning view: the address of the first
element and the extent.  The base of the single dimension is the default `1`
(one-based indexing), which is the base the generated kernel assumes. -/
structure array1 where
  data : Int
  n1 : Int
  deriving DecidableEq, Repr

/-- The two array parameters of `vecadd_kernel`. -/
inductive Param where
  | y_d
  | x_d
  deriving DecidableEq, Repr

/-- One element access: which parameter, which (one-based) index. -/
inductive Access where
  | read (p : Param) (i : Int)
  | write (p : Param) (i : Int)
  deriving DecidableEq, Repr

/-- Device state: flat memory and the trace of element accesses so far. -/
structure Device (α : Type) where
  mem : Int → α
  trace : List Access

namespace array1

/-- Modelled from the spec: `Construct(pointer, extents)` of the array view
(`gpufort_arrays.h` is not among the sources): fails with `InvalidShape` when
the extent is not positive, otherwise holds pointer and extent by value. -/
def Construct (pointer : Int) (extent : Int) : Except ArrayError array1 :=
  if extent ≤ 0 then Except.error ArrayError.InvalidShape
  else Except.ok { data := pointer, n1 := extent }

/-- Modelled from the spec: `Size(dimension)` of the array view
(`gpufort_arrays.h` is not among the sources): the extent along the one-based
dimension, `OutOfRange` when the dimension exceeds the rank (here 1). -/
def size (v : array1) (dim : Int) : Except ArrayError Int :=
  if 1 < dim then Except.error ArrayError.OutOfRange else Except.ok v.n1

/-- Modelled from the spec: the base (lower bound) of the single dimension
(`gpufort_arrays.h` is not among the sources): always the default `1`. -/
def lbound (_v : array1) : Int := 1

/-- Modelled from the spec: flat offset of `ElementAccess(i)` for a rank-1
view with base 1 (`gpufort_arrays.h` is not among the sources). -/
def address (v : array1) (i : Int) : Int := v.data + (i - v.lbound)

/-- Modelled from the spec: `ElementAccess(i)` used as an rvalue
(`gpufort_arrays.h` is not among the sources).  No bounds check. -/
def load {α : Type} (v : array1) (p : Param) (i : Int) (dev : Device α) :
    α × Device α :=
  (dev.mem (v.address i), { dev with trace := dev.trace ++ [Access.read p i] })

/-- Modelled from the spec: `ElementAccess(i)` used as the target of an
assignment (`gpufort_arrays.h` is not among the sources).  No bounds check. -/
def store {α : Type} (v : array1) (p : Param) (i : Int) (x : α) (dev : Device α) :
    Device α :=
  { mem := Function.update dev.mem (v.address i) x,
    trace := dev.trace ++ [Access.write p i] }

end array1

/-! ## Helpers of `gpufort.h` -/

/-- Modelled from the spec: `loop_cond` of `gpufort.h`, which is not among the
sources: checks `index <= end` for an ascending range (positive stride) and
the mirrored condition for a descending one. -/
def loop_cond (idx end_ stride : Int) : Bool :=
  if 0 < stride then decide (idx ≤ end_) else decide (end_ ≤ idx)

/-- Modelled from the spec: `divideAndRoundUp` of `gpufort.h`, which is not
among the sources: `(N + B - 1) / B` in integer arithmetic (C division). -/
def divideAndRoundUp (N B : Int) : Int := (N + B - 1).tdiv B

/-! ## The kernel -/

/-- Line 26: `int i = 1 + (1)*(threadIdx.x + blockIdx.x * blockDim.x);`.
The right-hand side is unsigned 32-bit arithmetic; the initialisation converts
it to `int`. -/
def vecadd_kernel_i (threadIdx_x blockIdx_x blockDim_x : Nat) : Int :=
  int_of_u32 (u32 (1 + u32 (1 * u32 (threadIdx_x + u32 (blockIdx_x * blockDim_x)))))

/-- Lines 21-30: the body of `vecadd_kernel` as run by one thread. -/
def vecadd_kernel {α : Type} [Add α] [Mul α] (y_d : array1) (a : α) (x_d : array1)
    (threadIdx_x blockIdx_x blockDim_x : Nat) (dev : Device α) :
    Except ArrayError (Device α) := do
  let i := vecadd_kernel_i threadIdx_x blockIdx_x blockDim_x
  let n ← y_d.size 1
  if loop_cond i n 1 then
    let (yv, dev1) := y_d.load Param.y_d i dev
    let (xv, dev2) := x_d.load Param.x_d i dev1
    pure (y_d.store Param.y_d i (yv + a * xv) dev2)
  else
    pure dev

/-! ## The launch -/

/-- The `x` component of a `dim3` built from an `int` (the other two
components are 1 and are not used by the kernel). -/
structure dim3 where
  x : Nat
  deriving DecidableEq, Repr

/-- Construction `dim3 d(n)` from an `int`. -/
def dim3.ofInt (n : Int) : dim3 := { x := u32_of_int n }

/-- All threads `(threadIdx.x, blockIdx.x)` of a grid, block by block. -/
def gridThreads (gridDim_x blockDim_x : Nat) : List (Nat × Nat) :=
  (List.range gridDim_x).flatMap
    (fun b => (List.range blockDim_x).map (fun t => (t, b)))

/-- Runs the kernel body for the threads of a schedule, one after the other. -/
def runThreads {α : Type}
    (kernel : Nat → Nat → Nat → Device α → Except ArrayError (Device α))
    (blockDim_x : Nat) (sched : List (Nat × Nat)) (dev : Device α) :
    Except ArrayError (Device α) :=
  sched.foldlM (fun d p => kernel p.1 p.2 blockDim_x d) dev

/-- The HIP launch: every thread of every block runs the kernel body once.
Shared-memory size and stream are not interpreted.  A device fixes no order
among the threads; this function is the execution that runs them block by
block.  What a launch guarantees is therefore stated for every order, through
`runThreads` over an arbitrary permutation of `gridThreads`, and what a launch
can do wrong is shown on one execution. -/
def hipLaunchKernelGGL {α : Type}
    (kernel : Nat → Nat → Nat → Device α → Except ArrayError (Device α))
    (grid block : dim3) (_sharedmem : Int) (_stream : Nat) (dev : Device α) :
    Except ArrayError (Device α) :=
  runThreads kernel block.x (gridThreads grid.x block.x) dev

/-- What `launch_vecadd_kernel_auto_` leaves behind: its three by-reference
arguments and the device state. -/
structure Launched (α : Type) where
  y_d : array1
  a : α
  x_d : array1
  dev : Device α

/-- Line 41 and 42: the grid size derived from the extent. -/
def vecadd_kernel_gridX (n : Int) : Int :=
  let vecadd_kernel_blockX : Int := 128
  let vecadd_kernel_NX : Int := 1 + (n - 1)
  divideAndRoundUp vecadd_kernel_NX vecadd_kernel_blockX

/-- Lines 32-47: `launch_vecadd_kernel_auto_`. -/
def launch_vecadd_kernel_auto_ {α : Type} [Add α] [Mul α] (sharedmem : Int) (stream : Nat)
    (y_d : array1) (a : α) (x_d : array1) (dev : Device α) :
    Except ArrayError (Launched α) := do
  let vecadd_kernel_blockX : Int := 128
  let block := dim3.ofInt vecadd_kernel_blockX
  let n ← y_d.size 1
  let grid := dim3.ofInt (vecadd_kernel_gridX n)
  let dev1 ← hipLaunchKernelGGL (vecadd_kernel y_d a x_d) grid block sharedmem stream dev
  pure { y_d := y_d, a := a, x_d := x_d, dev := dev1 }

end gpufort

/-! ## The interoperability forwarders (`bindcpp.cpp`) -/

namespace bindcpp

/-- Everything outside the two forwarders: the state of the Fortran side and
the text written to `std::cout`. -/
structure World (σ : Type) where
  fortran : σ
  cout : List String

/-- The line both forwarders print after the call. -/
def post_line (b : Int) : String :=
  "C++ code: mysubroutine2: value of 'b' [post]: " ++ toString b ++ "\n"

/-- Lines 7-10: `mysubroutine2`.  The wrapped `mysubroutine1` is a parameter;
it receives `a` and `b` and leaves a new `b`. -/
def mysubroutine2 {σ : Type} (mysubroutine1 : Int → Int → World σ → Int × World σ)
    (a b : Int) (w : World σ) : Int × World σ :=
  let (b1, w1) := mysubroutine1 a b w
  (b1, { w1 with cout := w1.cout ++ [post_line b1] })

/-- Lines 11-15: `myfunction2`.  The wrapped `myfunction1` is a parameter; it
returns a result and leaves a new `b`. -/
def myfunction2 {σ : Type} (myfunction1 : Int → Int → World σ → Int × Int × World σ)
    (a b : Int) (w : World σ) : Int × Int × World σ :=
  let (result, b1, w1) := myfunction1 a b w
  (result, b1, { w1 with cout := w1.cout ++ [post_line b1] })

/-- An implementation of `mysubroutine1` used to observe the number of calls:
it stores `a + b` in `b` and counts one call in the Fortran state. -/
def counting_subroutine1 (a b : Int) (w : World Nat) : Int × World Nat :=
  (a + b, { w with fortran := w.fortran + 1 })

/-- An implementation of `myfunction1` used to observe the number of calls: it
returns `a * 2`, stores `a + b` in `b` and counts one call. -/
def counting_function1 (a b : Int) (w : World Nat) : Int × Int × World Nat :=
  (a * 2, a + b, { w with fortran := w.fortran + 1 })

end bindcpp

namespace gpufort

/-! ## Auxiliary definitions used in the proofs -/

/-- Proof device: the effect of the kernel body for a thread whose index is
`i`, as a total function on the device state. -/
def threadStep {α : Type} [Add α] [Mul α] (y_d : array1) (a : α) (x_d : array1)
    (i : Int) (dev : Device α) : Device α :=
  if i ≤ y_d.n1 then
    { mem := Function.update dev.mem (y_d.address i)
        (dev.mem (y_d.address i) + a * dev.mem (x_d.address i)),
      trace := dev.trace ++
        [Access.read Param.y_d i, Access.read Param.x_d i, Access.write Param.y_d i] }
  else dev

/-- Proof device: the index of the thread with global id `g` (no reference to
thread, block and block size separately). -/
def idxOfGid (g : Nat) : Int := int_of_u32 (u32 (1 + g))

/-- Two views are held in distinct buffers: their element ranges do not
overlap. -/
def array1.separate (v w : array1) : Prop :=
  v.data + v.n1 ≤ w.data ∨ w.data + w.n1 ≤ v.data

/-- Proof device: the thread bodies for a list of thread indices, one after
the other. -/
def runIdx {α : Type} [Add α] [Mul α] (y_d : array1) (a : α) (x_d : array1)
    (is : List Int) (dev : Device α) : Device α :=
  is.foldl (fun d i => threadStep y_d a x_d i d) dev

/-- Proof device: the element accesses of a thread whose index is `i`. -/
def stepTrace (y_d : array1) (i : Int) : List Access :=
  if i ≤ y_d.n1 then
    [Access.read Param.y_d i, Access.read Param.x_d i, Access.write Param.y_d i]
  else []

/-- Proof device: the effect on memory of a thread whose index is `i`. -/
def stepMem {α : Type} [Add α] [Mul α] (y_d : array1) (a : α) (x_d : array1)
    (i : Int) (m : Int → α) : Int → α :=
  if i ≤ y_d.n1 then
    Function.update m (y_d.address i) (m (y_d.address i) + a * m (x_d.address i))
  else m

/-- Memory in which every cell holds its own address. -/
def address_mem : Int → Int := fun p => p

/-- Memory of the end-to-end scenario: `y = [10, 20, 30]` at addresses 0..2,
every other cell (in particular `x = [1, 1, 1]` at addresses 100..102) is 1. -/
def scenario_mem : Int → Int := fun p =>
  if p = 0 then 10 else if p = 1 then 20 else if p = 2 then 30 else 1

/-! ## Basic facts -/

theorem vecadd_kernel_eq {α : Type} [Add α] [Mul α] (y_d : array1) (a : α) (x_d : array1)
    (t b B : Nat) (dev : Device α) :
    vecadd_kernel y_d a x_d t b B dev
      = Except.ok (threadStep y_d a x_d (vecadd_kernel_i t b B) dev) := by
  unfold vecadd_kernel threadStep
  by_cases h : vecadd_kernel_i t b B ≤ y_d.n1
  · simp [array1.size, loop_cond, array1.load, array1.store, h, bind, Except.bind, pure, Except.pure]
  · simp [array1.size, loop_cond, array1.load, array1.store, h, bind, Except.bind, pure, Except.pure]

theorem foldlM_ok {σ β : Type} (f : σ → β → σ) (l : List β) (s : σ) :
    l.foldlM (fun d p => (Except.ok (f d p) : Except ArrayError σ)) s
      = Except.ok (l.foldl f s) := by
  induction l generalizing s with
  | nil => rfl
  | cons x xs ih => simp only [List.foldlM, List.foldl]; exact ih (f s x)

theorem runThreads_eq {α : Type} [Add α] [Mul α] (y_d : array1) (a : α) (x_d : array1)
    (B : Nat) (sched : List (Nat × Nat)) (dev : Device α) :
    runThreads (vecadd_kernel y_d a x_d) B sched dev
      = Except.ok (sched.foldl
          (fun d p => threadStep y_d a x_d (vecadd_kernel_i p.1 p.2 B) d) dev) := by
  unfold runThreads
  simp only [vecadd_kernel_eq]
  exact foldlM_ok _ _ _

theorem vecadd_kernel_i_eq (t b B : Nat) : vecadd_kernel_i t b B = idxOfGid (t + b * B) := by
  unfold vecadd_kernel_i idxOfGid u32
  congr 1
  simp [Nat.add_mod, Nat.mul_mod]

theorem idxOfGid_small (g : Nat) (h : g + 1 < 2 ^ 31) : idxOfGid g = (g : Int) + 1 := by
  unfold idxOfGid u32 int_of_u32
  have h1 : (1 + g) % 2 ^ 32 = g + 1 := by omega
  rw [h1, if_pos h]; push_cast; ring

theorem idxOfGid_edge : idxOfGid (2 ^ 31 - 1) = -2 ^ 31 := by decide

theorem address_eq (v : array1) (i : Int) : v.address i = v.data + (i - 1) := rfl

theorem runThreads_eq_runIdx {α : Type} [Add α] [Mul α] (y_d : array1) (a : α)
    (x_d : array1) (B : Nat) (sched : List (Nat × Nat)) (dev : Device α) :
    runThreads (vecadd_kernel y_d a x_d) B sched dev
      = Except.ok (runIdx y_d a x_d (sched.map (fun p => vecadd_kernel_i p.1 p.2 B)) dev) := by
  rw [runThreads_eq, runIdx, List.foldl_map]

theorem gridThreads_succ (G B : Nat) :
    gridThreads (G + 1) B = gridThreads G B ++ (List.range B).map (fun t => (t, G)) := by
  unfold gridThreads
  rw [List.range_succ, List.flatMap_append, List.flatMap_singleton]

theorem gridThreads_gid (G B : Nat) :
    (gridThreads G B).map (fun p => p.1 + p.2 * B) = List.range (G * B) := by
  induction G with
  | zero => simp [gridThreads]
  | succ G ih =>
    rw [gridThreads_succ, List.map_append, ih, Nat.succ_mul, List.range_add, List.map_map]
    congr 1
    apply List.map_congr_left
    intro t _
    simp [Nat.add_comm]

theorem gridThreads_idx (G B : Nat) :
    (gridThreads G B).map (fun p => vecadd_kernel_i p.1 p.2 B)
      = (List.range (G * B)).map idxOfGid := by
  rw [← gridThreads_gid, List.map_map]
  apply List.map_congr_left
  intro p _
  simp [vecadd_kernel_i_eq]

theorem runIdx_nil {α : Type} [Add α] [Mul α] (y_d : array1) (a : α) (x_d : array1)
    (dev : Device α) : runIdx y_d a x_d [] dev = dev := rfl

theorem runIdx_append {α : Type} [Add α] [Mul α] (y_d : array1) (a : α) (x_d : array1)
    (l1 l2 : List Int) (dev : Device α) :
    runIdx y_d a x_d (l1 ++ l2) dev = runIdx y_d a x_d l2 (runIdx y_d a x_d l1 dev) := by
  simp [runIdx, List.foldl_append]

theorem runIdx_cons {α : Type} [Add α] [Mul α] (y_d : array1) (a : α) (x_d : array1)
    (i : Int) (l : List Int) (dev : Device α) :
    runIdx y_d a x_d (i :: l) dev = runIdx y_d a x_d l (threadStep y_d a x_d i dev) := rfl

theorem threadStep_trace {α : Type} [Add α] [Mul α] (y_d : array1) (a : α) (x_d : array1)
    (i : Int) (dev : Device α) :
    (threadStep y_d a x_d i dev).trace = dev.trace ++ stepTrace y_d i := by
  unfold threadStep stepTrace
  split <;> simp

theorem runIdx_trace {α : Type} [Add α] [Mul α] (y_d : array1) (a : α) (x_d : array1)
    (is : List Int) (dev : Device α) :
    (runIdx y_d a x_d is dev).trace = dev.trace ++ is.flatMap (stepTrace y_d) := by
  induction is generalizing dev with
  | nil => simp [runIdx]
  | cons i is ih =>
    rw [runIdx_cons, ih, threadStep_trace, List.flatMap_cons, List.append_assoc]

theorem threadStep_mem_of_ne {α : Type} [Add α] [Mul α] (y_d : array1) (a : α) (x_d : array1)
    (i : Int) (dev : Device α) (q : Int) (h : i ≤ y_d.n1 → y_d.address i ≠ q) :
    (threadStep y_d a x_d i dev).mem q = dev.mem q := by
  unfold threadStep
  split
  · rename_i hi
    simp [Function.update, Ne.symm (h hi)]
  · rfl

theorem runIdx_mem_of_ne {α : Type} [Add α] [Mul α] (y_d : array1) (a : α) (x_d : array1)
    (is : List Int) (dev : Device α) (q : Int)
    (h : ∀ i ∈ is, i ≤ y_d.n1 → y_d.address i ≠ q) :
    (runIdx y_d a x_d is dev).mem q = dev.mem q := by
  induction is generalizing dev with
  | nil => rfl
  | cons i is ih =>
    rw [runIdx_cons, ih _ (fun j hj => h j (List.mem_cons_of_mem _ hj)),
      threadStep_mem_of_ne _ _ _ _ _ _ (h i (List.mem_cons_self _ _))]

theorem threadStep_mem_self {α : Type} [Add α] [Mul α] (y_d : array1) (a : α) (x_d : array1)
    (i : Int) (dev : Device α) (h : i ≤ y_d.n1) :
    (threadStep y_d a x_d i dev).mem (y_d.address i)
      = dev.mem (y_d.address i) + a * dev.mem (x_d.address i) := by
  unfold threadStep
  simp [h]

theorem launch_eq {α : Type} [Add α] [Mul α] (sharedmem : Int) (stream : Nat)
    (y_d : array1) (a : α) (x_d : array1) (dev : Device α) :
    launch_vecadd_kernel_auto_ sharedmem stream y_d a x_d dev
      = Except.ok { y_d := y_d, a := a, x_d := x_d,
                    dev := runIdx y_d a x_d
                      ((List.range (u32_of_int (vecadd_kernel_gridX y_d.n1) * 128)).map idxOfGid)
                      dev } := by
  have h128 : (dim3.ofInt 128).x = 128 := by decide
  unfold launch_vecadd_kernel_auto_ hipLaunchKernelGGL
  simp only [array1.size, h128, runThreads_eq_runIdx, gridThreads_idx, dim3.ofInt]
  rfl

theorem gridX_eq (n : Int) (h1 : 1 ≤ n) (h2 : n < 2 ^ 31) :
    u32_of_int (vecadd_kernel_gridX n) = ((n + 127) / 128).toNat := by
  unfold vecadd_kernel_gridX divideAndRoundUp u32_of_int
  rw [Int.tdiv_eq_ediv (by omega) (by omega)]
  omega

/-- Invariant of the block-major run over the first `m` global ids. -/
theorem runIdx_range_inv {α : Type} [Add α] [Mul α] (y_d : array1) (a : α) (x_d : array1)
    (dev : Device α) (hN : y_d.n1 < 2 ^ 31) (hx : y_d.n1 ≤ x_d.n1)
    (hsep : x_d.separate y_d) (m : Nat) (hm : m ≤ 2 ^ 31) (j : Int) (h1 : 1 ≤ j)
    (hj : j ≤ y_d.n1) :
    ((runIdx y_d a x_d ((List.range m).map idxOfGid) dev).mem (y_d.address j)
        = if j ≤ (m : Int) then dev.mem (y_d.address j) + a * dev.mem (x_d.address j)
          else dev.mem (y_d.address j)) ∧
    ((m : Int) < j →
      (runIdx y_d a x_d ((List.range m).map idxOfGid) dev).mem (x_d.address j)
        = dev.mem (x_d.address j)) := by
  induction m with
  | zero =>
    have h0 : ¬ j ≤ 0 := by omega
    simp [runIdx, h0]
  | succ m ih =>
    obtain ⟨ihy, ihx⟩ := ih (by omega)
    rw [List.range_succ, List.map_append, runIdx_append]
    simp only [List.map_cons, List.map_nil, runIdx_cons, runIdx_nil]
    unfold array1.separate at hsep
    by_cases hw : m + 1 < 2 ^ 31
    · rw [idxOfGid_small m hw]
      by_cases hjm : j = (m : Int) + 1
      · subst hjm
        rw [threadStep_mem_self _ _ _ _ _ hj, ihy, ihx (by omega)]
        have h3 : ¬ ((m : Int) + 1 ≤ (m : Int)) := by omega
        have h4 : ((m : Int) + 1 ≤ ((m + 1 : Nat) : Int)) := by push_cast; omega
        simp only [h3, h4, if_true, if_false]
        constructor
        · trivial
        · intro h; exfalso; push_cast at h; omega
      · constructor
        · rw [threadStep_mem_of_ne _ _ _ _ _ _ (by
            intro _; simp only [address_eq]; omega), ihy]
          have h5 : (j ≤ ((m + 1 : Nat) : Int)) ↔ j ≤ (m : Int) := by push_cast; omega
          simp only [h5]
        · intro h
          rw [threadStep_mem_of_ne _ _ _ _ _ _ (by
            intro hle; simp only [address_eq]; omega), ihx (by push_cast at h; omega)]
    · have hm2 : m = 2 ^ 31 - 1 := by omega
      subst hm2
      rw [idxOfGid_edge]
      constructor
      · rw [threadStep_mem_of_ne _ _ _ _ _ _ (by
          intro _; simp only [address_eq]; omega), ihy]
        have h6 : j ≤ ((2 ^ 31 - 1 : Nat) : Int) := by
          have : ((2 ^ 31 - 1 : Nat) : Int) = 2147483647 := by norm_num
          omega
        have h7 : j ≤ ((2 ^ 31 - 1 + 1 : Nat) : Int) := by
          have : ((2 ^ 31 - 1 + 1 : Nat) : Int) = 2147483648 := by norm_num
          omega
        simp only [h6, h7, if_true]
      · intro h
        exfalso
        have : ((2 ^ 31 - 1 + 1 : Nat) : Int) = 2147483648 := by norm_num
        omega

/-! ## Launches in which no index wraps -/

theorem mem_idx_range (m : Nat) (hm : m < 2 ^ 31) (i : Int) :
    i ∈ (List.range m).map idxOfGid ↔ 1 ≤ i ∧ i ≤ (m : Int) := by
  simp only [List.mem_map, List.mem_range]
  constructor
  · rintro ⟨g, hg, rfl⟩
    rw [idxOfGid_small g (by omega)]
    omega
  · rintro ⟨h1, h2⟩
    refine ⟨(i - 1).toNat, by omega, ?_⟩
    rw [idxOfGid_small _ (by omega)]
    omega

theorem gridX_bounds (n : Int) (h1 : 1 ≤ n) (h2 : n + 127 < 2 ^ 31) :
    u32_of_int (vecadd_kernel_gridX n) * 128 < 2 ^ 31 ∧
    n ≤ ((u32_of_int (vecadd_kernel_gridX n) * 128 : Nat) : Int) := by
  rw [gridX_eq n h1 (by omega)]
  constructor
  · omega
  · push_cast; omega

theorem mem_stepTrace_read_x (y_d : array1) (i j : Int) :
    Access.read Param.x_d j ∈ stepTrace y_d i ↔ j = i ∧ i ≤ y_d.n1 := by
  unfold stepTrace
  split
  · rename_i h
    simp [h]
  · rename_i h
    simp [h]

theorem launch_last_thread {α : Type} [Add α] [Mul α] (sharedmem : Int) (stream : Nat)
    (y_d : array1) (a : α) (x_d : array1) (dev : Device α) (m : Nat)
    (hG : u32_of_int (vecadd_kernel_gridX y_d.n1) * 128 = m + 1) (hm : m < 2 ^ 31)
    (hle : idxOfGid m ≤ y_d.n1)
    (hy : ∀ i : Int, 1 ≤ i → i ≤ (m : Int) → y_d.address i ≠ y_d.address (idxOfGid m))
    (hx : ∀ i : Int, 1 ≤ i → i ≤ (m : Int) → y_d.address i ≠ x_d.address (idxOfGid m)) :
    ∃ r, launch_vecadd_kernel_auto_ sharedmem stream y_d a x_d dev = Except.ok r ∧
      r.dev.mem (y_d.address (idxOfGid m))
        = dev.mem (y_d.address (idxOfGid m)) + a * dev.mem (x_d.address (idxOfGid m)) := by
  refine ⟨_, launch_eq sharedmem stream y_d a x_d dev, ?_⟩
  rw [hG, List.range_succ, List.map_append, runIdx_append]
  simp only [List.map_cons, List.map_nil, runIdx_cons, runIdx_nil]
  rw [threadStep_mem_self _ _ _ _ _ hle, runIdx_mem_of_ne, runIdx_mem_of_ne]
  · intro i hi _
    have := (mem_idx_range m hm i).1 hi
    exact hx i this.1 this.2
  · intro i hi _
    have := (mem_idx_range m hm i).1 hi
    exact hy i this.1 this.2

theorem launch_thread_reads_x {α : Type} [Add α] [Mul α] (sharedmem : Int) (stream : Nat)
    (y_d : array1) (a : α) (x_d : array1) (dev : Device α) (g : Nat)
    (hg : g < u32_of_int (vecadd_kernel_gridX y_d.n1) * 128) (hle : idxOfGid g ≤ y_d.n1) :
    ∃ r, launch_vecadd_kernel_auto_ sharedmem stream y_d a x_d dev = Except.ok r ∧
      Access.read Param.x_d (idxOfGid g) ∈ r.dev.trace := by
  refine ⟨_, launch_eq sharedmem stream y_d a x_d dev, ?_⟩
  rw [runIdx_trace]
  apply List.mem_append_right
  rw [List.mem_flatMap]
  exact ⟨idxOfGid g, List.mem_map.2 ⟨g, List.mem_range.2 hg, rfl⟩,
    (mem_stepTrace_read_x y_d _ _).2 ⟨rfl, hle⟩⟩

/-! ## Commuting thread bodies -/

theorem threadStep_mem {α : Type} [Add α] [Mul α] (y_d : array1) (a : α) (x_d : array1)
    (i : Int) (dev : Device α) :
    (threadStep y_d a x_d i dev).mem = stepMem y_d a x_d i dev.mem := by
  unfold threadStep stepMem
  split <;> rfl

theorem runIdx_mem {α : Type} [Add α] [Mul α] (y_d : array1) (a : α) (x_d : array1)
    (is : List Int) (dev : Device α) :
    (runIdx y_d a x_d is dev).mem = is.foldl (fun m i => stepMem y_d a x_d i m) dev.mem := by
  induction is generalizing dev with
  | nil => rfl
  | cons i is ih => rw [runIdx_cons, ih, threadStep_mem]; rfl

theorem stepMem_comm {α : Type} [Add α] [Mul α] (y_d : array1) (a : α) (x_d : array1)
    (hx : y_d.n1 ≤ x_d.n1) (hsep : x_d.separate y_d) (i j : Int) (hi : 1 ≤ i) (hj : 1 ≤ j)
    (m : Int → α) :
    stepMem y_d a x_d j (stepMem y_d a x_d i m) = stepMem y_d a x_d i (stepMem y_d a x_d j m) := by
  by_cases hij : i = j
  · subst hij; rfl
  unfold stepMem
  by_cases hiN : i ≤ y_d.n1
  · by_cases hjN : j ≤ y_d.n1
    · unfold array1.separate at hsep
      have h1 : y_d.address j ≠ y_d.address i := by simp only [address_eq]; omega
      have h2 : x_d.address j ≠ y_d.address i := by simp only [address_eq]; omega
      have h3 : x_d.address i ≠ y_d.address j := by simp only [address_eq]; omega
      simp only [hiN, hjN, if_true]
      rw [Function.update_comm h1]
      simp only [Function.update_noteq h1, Function.update_noteq h2,
        Function.update_noteq h1.symm, Function.update_noteq h3]
    · simp only [hiN, hjN, if_true, if_false]
  · by_cases hjN : j ≤ y_d.n1
    · simp only [hiN, hjN, if_true, if_false]
    · simp only [hiN, hjN, if_false]

theorem schedule_mem_eq {α : Type} [Add α] [Mul α] (y_d : array1) (a : α) (x_d : array1)
    (dev : Device α) (sched : List (Nat × Nat)) (hx : y_d.n1 ≤ x_d.n1)
    (hsep : x_d.separate y_d) (hN : 1 ≤ y_d.n1) (hfit : y_d.n1 + 127 < 2 ^ 31)
    (hperm : sched.Perm (gridThreads (dim3.ofInt (vecadd_kernel_gridX y_d.n1)).x 128)) :
    ∃ d, runThreads (vecadd_kernel y_d a x_d) 128 sched dev = Except.ok d ∧
      d.mem = (runIdx y_d a x_d
        ((List.range (u32_of_int (vecadd_kernel_gridX y_d.n1) * 128)).map idxOfGid) dev).mem := by
  obtain ⟨hG, -⟩ := gridX_bounds y_d.n1 hN hfit
  refine ⟨_, runThreads_eq_runIdx y_d a x_d 128 sched dev, ?_⟩
  rw [runIdx_mem, runIdx_mem, ← gridThreads_idx]
  have hp := hperm.map (fun p : Nat × Nat => vecadd_kernel_i p.1 p.2 128)
  have hpos : ∀ i ∈ sched.map (fun p : Nat × Nat => vecadd_kernel_i p.1 p.2 128), 1 ≤ i := by
    intro i hi
    have hi2 := hp.subset hi
    have hi3 : i ∈ (List.range (u32_of_int (vecadd_kernel_gridX y_d.n1) * 128)).map
        idxOfGid := by
      rw [← gridThreads_idx]; exact hi2
    exact ((mem_idx_range _ hG i).1 hi3).1
  exact List.Perm.foldl_eq' hp
    (fun i hi j hj m => stepMem_comm y_d a x_d hx hsep i j (hpos i hi) (hpos j hj) m) dev.mem

/-! ## Schedules of a grid -/

theorem mem_gridThreads (G B : Nat) (p : Nat × Nat) :
    p ∈ gridThreads G B ↔ p.1 < B ∧ p.2 < G := by
  unfold gridThreads
  simp only [List.mem_flatMap, List.mem_range, List.mem_map]
  constructor
  · rintro ⟨b, hb, t, ht, rfl⟩
    exact ⟨ht, hb⟩
  · rintro ⟨ht, hb⟩
    exact ⟨p.2, hb, p.1, ht, rfl⟩

theorem launch_block_major {α : Type} [Add α] [Mul α] (sharedmem : Int) (stream : Nat)
    (y_d : array1) (a : α) (x_d : array1) (dev : Device α) :
    ∃ d, runThreads (vecadd_kernel y_d a x_d) 128
          (gridThreads (dim3.ofInt (vecadd_kernel_gridX y_d.n1)).x 128) dev = Except.ok d ∧
      launch_vecadd_kernel_auto_ sharedmem stream y_d a x_d dev
        = Except.ok { y_d := y_d, a := a, x_d := x_d, dev := d } := by
  refine ⟨_, runThreads_eq_runIdx _ _ _ _ _ _, ?_⟩
  rw [launch_eq, gridThreads_idx]
  rfl

theorem mem_sched_idx (G : Nat) (sched : List (Nat × Nat))
    (hperm : sched.Perm (gridThreads G 128)) (hG : G * 128 < 2 ^ 31) (i : Int) :
    i ∈ sched.map (fun p : Nat × Nat => vecadd_kernel_i p.1 p.2 128)
      ↔ 1 ≤ i ∧ i ≤ ((G * 128 : Nat) : Int) := by
  rw [(hperm.map _).mem_iff, gridThreads_idx, mem_idx_range _ hG]

theorem wrapped_thread_in_sched (G : Nat) (sched : List (Nat × Nat))
    (hperm : sched.Perm (gridThreads G 128)) (hG : 16777216 ≤ G) :
    (-2147483648 : Int) ∈ sched.map (fun p : Nat × Nat => vecadd_kernel_i p.1 p.2 128) := by
  have hmem : ((127, 16777215) : Nat × Nat) ∈ sched :=
    hperm.mem_iff.2 ((mem_gridThreads G 128 _).2 ⟨by decide, by omega⟩)
  have hidx : vecadd_kernel_i 127 16777215 128 = -2147483648 := by decide
  exact List.mem_map.2 ⟨(127, 16777215), hmem, hidx⟩

theorem mem_stepTrace_write_y (y_d : array1) (i j : Int) :
    Access.write Param.y_d j ∈ stepTrace y_d i ↔ j = i ∧ i ≤ y_d.n1 := by
  unfold stepTrace
  split
  · rename_i h
    simp [h]
  · rename_i h
    simp [h]

theorem mem_flatMap_read_x (y_d : array1) (is : List Int) (j : Int) :
    Access.read Param.x_d j ∈ is.flatMap (stepTrace y_d) ↔ j ∈ is ∧ j ≤ y_d.n1 := by
  simp only [List.mem_flatMap, mem_stepTrace_read_x]
  constructor
  · rintro ⟨i, hi, rfl, hle⟩
    exact ⟨hi, hle⟩
  · rintro ⟨hi, hle⟩
    exact ⟨j, hi, rfl, hle⟩

theorem mem_flatMap_write_y (y_d : array1) (is : List Int) (j : Int) :
    Access.write Param.y_d j ∈ is.flatMap (stepTrace y_d) ↔ j ∈ is ∧ j ≤ y_d.n1 := by
  simp only [List.mem_flatMap, mem_stepTrace_write_y]
  constructor
  · rintro ⟨i, hi, rfl, hle⟩
    exact ⟨hi, hle⟩
  · rintro ⟨hi, hle⟩
    exact ⟨j, hi, rfl, hle⟩

theorem run_trace {α : Type} [Add α] [Mul α] (y_d : array1) (a : α) (x_d : array1)
    (sched : List (Nat × Nat)) (dev : Device α) :
    ∃ d, runThreads (vecadd_kernel y_d a x_d) 128 sched dev = Except.ok d ∧
      d.mem = (runIdx y_d a x_d
        (sched.map (fun p : Nat × Nat => vecadd_kernel_i p.1 p.2 128)) dev).mem ∧
      d.trace = dev.trace ++
        (sched.map (fun p : Nat × Nat => vecadd_kernel_i p.1 p.2 128)).flatMap
          (stepTrace y_d) :=
  ⟨_, runThreads_eq_runIdx _ _ _ _ _ _, rfl, runIdx_trace _ _ _ _ _⟩

theorem last_thread_first_perm (G : Nat) :
    (((127, G) : Nat × Nat) ::
        (gridThreads G 128 ++ (List.range 127).map (fun t => (t, G)))).Perm
      (gridThreads (G + 1) 128) := by
  have h : List.range 128 = List.range 127 ++ [127] := List.range_succ 127
  rw [gridThreads_succ, h, List.map_append, List.map_singleton, ← List.append_assoc]
  exact (List.perm_append_singleton _ _).symm

theorem run_last_thread_first {α : Type} [Add α] [Mul α] (y_d : array1) (a : α)
    (x_d : array1) (dev : Device α) (G : Nat) :
    runThreads (vecadd_kernel y_d a x_d) 128
        (((127, G) : Nat × Nat) ::
          (gridThreads G 128 ++ (List.range 127).map (fun t => (t, G)))) dev
      = Except.ok (runIdx y_d a x_d ((List.range (G * 128 + 127)).map idxOfGid)
          (threadStep y_d a x_d (vecadd_kernel_i 127 G 128) dev)) := by
  rw [runThreads_eq_runIdx, List.map_cons, runIdx_cons, List.map_append, gridThreads_idx,
    List.map_map, List.range_add, List.map_append, List.map_map]
  congr 3
  apply List.map_congr_left
  intro t _
  simp [vecadd_kernel_i_eq, Nat.add_comm]

theorem last_thread_first_value {α : Type} [Add α] [Mul α] (y_d : array1) (a : α)
    (x_d : array1) (dev : Device α) (G : Nat) (hN : y_d.n1 < 2 ^ 31) (hx : y_d.n1 ≤ x_d.n1)
    (hsep : x_d.separate y_d) (hm : G * 128 + 127 ≤ 2 ^ 31) (h1 : 1 ≤ y_d.n1) :
    ∃ d, runThreads (vecadd_kernel y_d a x_d) 128
          (((127, G) : Nat × Nat) ::
            (gridThreads G 128 ++ (List.range 127).map (fun t => (t, G)))) dev
          = Except.ok d ∧
      d.mem (y_d.address 1)
        = (threadStep y_d a x_d (vecadd_kernel_i 127 G 128) dev).mem (y_d.address 1)
          + a * (threadStep y_d a x_d (vecadd_kernel_i 127 G 128) dev).mem (x_d.address 1) := by
  refine ⟨_, run_last_thread_first y_d a x_d dev G, ?_⟩
  have key := (runIdx_range_inv y_d a x_d
    (threadStep y_d a x_d (vecadd_kernel_i 127 G 128) dev) hN hx hsep (G * 128 + 127) hm 1
    (le_refl 1) h1).1
  have hle : (1 : Int) ≤ ((G * 128 + 127 : Nat) : Int) := by push_cast; omega
  simpa only [hle, if_true] using key

theorem uncovered_cell {α : Type} [Add α] [Mul α] (y_d : array1) (a : α) (x_d : array1)
    (dev : Device α) (G : Nat) (sched : List (Nat × Nat))
    (hperm : sched.Perm (gridThreads G 128)) (hG : G * 128 < 2 ^ 31) (j : Int)
    (hj : ((G * 128 : Nat) : Int) < j) :
    ∃ d, runThreads (vecadd_kernel y_d a x_d) 128 sched dev = Except.ok d ∧
      d.mem (y_d.address j) = dev.mem (y_d.address j) := by
  refine ⟨_, runThreads_eq_runIdx _ _ _ _ _ _, ?_⟩
  apply runIdx_mem_of_ne
  intro i hi _
  have := (mem_sched_idx G sched hperm hG i).1 hi
  simp only [address_eq]
  omega

/-! ## C1: postcondition of the launch -/

/-- Supporting result for C1: for every extent `N = y_d.size(1)` with `1 ≤ N`
and `N + 127 < 2^31`, every scalar `a` and every `x_d` of extent at least `N`
held in a buffer distinct from that of `y_d`, every order in which the threads
of the derived grid are run returns and leaves
`y_d(i) = old y_d(i) + a * old x_d(i)` for every index `i` in `1..N`; the
block-major launch is one of these orders. -/
theorem launch_postcondition_in_range {α : Type} [Add α] [Mul α] (sharedmem : Int)
    (stream : Nat) (y_d : array1) (a : α) (x_d : array1) (dev : Device α)
    (hN : 1 ≤ y_d.n1) (hfit : y_d.n1 + 127 < 2 ^ 31) (hx : y_d.n1 ≤ x_d.n1)
    (hsep : x_d.separate y_d) :
    (∀ sched : List (Nat × Nat),
      sched.Perm (gridThreads (dim3.ofInt (vecadd_kernel_gridX y_d.n1)).x 128) →
      ∃ d, runThreads (vecadd_kernel y_d a x_d) 128 sched dev = Except.ok d ∧
        ∀ i : Int, 1 ≤ i → i ≤ y_d.n1 →
          d.mem (y_d.address i)
            = dev.mem (y_d.address i) + a * dev.mem (x_d.address i)) ∧
    (∃ r, launch_vecadd_kernel_auto_ sharedmem stream y_d a x_d dev = Except.ok r ∧
      ∀ i : Int, 1 ≤ i → i ≤ y_d.n1 →
        r.dev.mem (y_d.address i)
          = dev.mem (y_d.address i) + a * dev.mem (x_d.address i)) := by
  have hint : y_d.n1 < 2 ^ 31 := by omega
  have hG := gridX_eq y_d.n1 hN hint
  have hpost : ∀ i : Int, 1 ≤ i → i ≤ y_d.n1 →
      (runIdx y_d a x_d
        ((List.range (u32_of_int (vecadd_kernel_gridX y_d.n1) * 128)).map idxOfGid) dev).mem
          (y_d.address i)
        = dev.mem (y_d.address i) + a * dev.mem (x_d.address i) := by
    intro i h1 hi
    have key := (runIdx_range_inv y_d a x_d dev hint hx hsep
      (u32_of_int (vecadd_kernel_gridX y_d.n1) * 128) (by rw [hG]; omega) i h1 hi).1
    have hle : i ≤ ((u32_of_int (vecadd_kernel_gridX y_d.n1) * 128 : Nat) : Int) := by
      rw [hG]; push_cast; omega
    simpa only [hle, if_true] using key
  refine ⟨?_, ⟨_, launch_eq sharedmem stream y_d a x_d dev, hpost⟩⟩
  intro sched hperm
  obtain ⟨d, hd, hmem⟩ := schedule_mem_eq y_d a x_d dev sched hx hsep hN hfit hperm
  refine ⟨d, hd, ?_⟩
  intro i h1 hi
  rw [hmem]
  exact hpost i h1 hi

/-- Scenario of the spec for C1: `a = 2`, `x = [1,1,1]`, `y = [10,20,30]` gives
`y = [12,22,32]`, in the block-major order and in the reverse order. -/
theorem launch_postcondition_in_range_witness :
    (∃ r, launch_vecadd_kernel_auto_ 0 0 ⟨0, 3⟩ (2 : Int) ⟨100, 3⟩ ⟨scenario_mem, []⟩
          = Except.ok r ∧
      r.dev.mem 0 = 12 ∧ r.dev.mem 1 = 22 ∧ r.dev.mem 2 = 32) ∧
    (∃ d, runThreads (vecadd_kernel ⟨0, 3⟩ (2 : Int) ⟨100, 3⟩) 128
          (gridThreads 1 128).reverse ⟨scenario_mem, []⟩ = Except.ok d ∧
      d.mem 0 = 12 ∧ d.mem 1 = 22 ∧ d.mem 2 = 32) := by
  have h := launch_postcondition_in_range 0 0 ⟨0, 3⟩ (2 : Int) ⟨100, 3⟩
    ⟨scenario_mem, []⟩ (by decide) (by decide) (by decide) (Or.inr (by decide))
  obtain ⟨r, hr, hr2⟩ := h.2
  obtain ⟨d, hd, hd2⟩ := h.1 (gridThreads 1 128).reverse (List.reverse_perm (gridThreads 1 128))
  exact ⟨⟨r, hr, hr2 1 (by decide) (by decide), hr2 2 (by decide) (by decide),
      hr2 3 (by decide) (by decide)⟩,
    ⟨d, hd, hd2 1 (by decide) (by decide), hd2 2 (by decide) (by decide),
      hd2 3 (by decide) (by decide)⟩⟩

/-- C1 (defect of the code at the extent `N = 2^31 - 1`): take `y_d` of that
extent at address `2^33`, `x_d` of the same extent at address
`2^33 - 2^31 - 1` (distinct buffers), `a = 1` and every cell 1, so that the
postcondition requires `y_d(i) = 2`.  Whatever number `G` of blocks of 128
threads is launched, the postcondition is not established: with
`G ≤ 16777215` no order of the grid updates `y_d(N)`, which stays 1; with
`G ≥ 16777216` the grid holds thread 127 of block 16777215, whose index is
`-2^31` and passes `loop_cond`; and for the grid the stub derives
(`G = 16777216`) the order that runs this thread first leaves `y_d(1) = 3`. -/
theorem postcondition_fails_at_int_max :
    ((1 : Int) ≤ (⟨8589934592, 2147483647⟩ : array1).n1 ∧
      (⟨8589934592, 2147483647⟩ : array1).n1 ≤ (⟨6442450943, 2147483647⟩ : array1).n1 ∧
      (⟨6442450943, 2147483647⟩ : array1).separate ⟨8589934592, 2147483647⟩ ∧
      (fun _ => (1 : Int)) ((⟨8589934592, 2147483647⟩ : array1).address 1)
        + 1 * (fun _ => (1 : Int)) ((⟨6442450943, 2147483647⟩ : array1).address 1) = 2) ∧
    (∀ (G : Nat) (sched : List (Nat × Nat)), G ≤ 16777215 →
      sched.Perm (gridThreads G 128) →
      ∃ d, runThreads (vecadd_kernel ⟨8589934592, 2147483647⟩ (1 : Int)
            ⟨6442450943, 2147483647⟩) 128 sched ⟨fun _ => 1, []⟩ = Except.ok d ∧
        d.mem ((⟨8589934592, 2147483647⟩ : array1).address 2147483647) = 1) ∧
    (∀ G : Nat, 16777216 ≤ G → ((127, 16777215) : Nat × Nat) ∈ gridThreads G 128) ∧
    (vecadd_kernel_i 127 16777215 128 = -2147483648 ∧
      loop_cond (-2147483648) 2147483647 1 = true) ∧
    ((dim3.ofInt (vecadd_kernel_gridX 2147483647)).x = 16777216 ∧
      (((127, 16777215) : Nat × Nat) ::
          (gridThreads 16777215 128 ++ (List.range 127).map (fun t => (t, 16777215)))).Perm
        (gridThreads (dim3.ofInt (vecadd_kernel_gridX 2147483647)).x 128) ∧
      ∃ d, runThreads (vecadd_kernel ⟨8589934592, 2147483647⟩ (1 : Int)
            ⟨6442450943, 2147483647⟩) 128
            (((127, 16777215) : Nat × Nat) ::
              (gridThreads 16777215 128 ++ (List.range 127).map (fun t => (t, 16777215))))
            ⟨fun _ => 1, []⟩ = Except.ok d ∧
        d.mem ((⟨8589934592, 2147483647⟩ : array1).address 1) = 3) := by
  refine ⟨⟨by decide, by decide, Or.inl (by decide), by decide⟩, ?_, ?_, by decide, by decide,
    ?_, ?_⟩
  · intro G sched hG hperm
    obtain ⟨d, hd, h⟩ := uncovered_cell ⟨8589934592, 2147483647⟩ (1 : Int)
      ⟨6442450943, 2147483647⟩ ⟨fun _ => 1, []⟩ G sched hperm (by omega) 2147483647
      (by push_cast; omega)
    exact ⟨d, hd, h⟩
  · intro G hG
    exact (mem_gridThreads G 128 _).2 ⟨by decide, by omega⟩
  · have hG : (dim3.ofInt (vecadd_kernel_gridX 2147483647)).x = 16777215 + 1 := by decide
    rw [hG]
    exact last_thread_first_perm 16777215
  · obtain ⟨d, hd, hv⟩ := last_thread_first_value ⟨8589934592, 2147483647⟩ (1 : Int)
      ⟨6442450943, 2147483647⟩ ⟨fun _ => 1, []⟩ 16777215 (by decide) (le_refl _)
      (Or.inl (by decide)) (by decide) (by decide)
    exact ⟨d, hd, hv.trans (by decide)⟩

/-! ## C3: rounding up -/

/-- C3: for every positive extent `N` and positive block size `B`,
`numBlocks = divideAndRoundUp(N, B)` satisfies `numBlocks * B ≥ N` and
`(numBlocks - 1) * B < N`, that is `numBlocks = ⌈N / B⌉`; the grid size of the
launch stub is this number for `B = 128`. -/
theorem divideAndRoundUp_ceil (N B : Int) (hN : 0 < N) (hB : 0 < B) :
    N ≤ divideAndRoundUp N B * B ∧ (divideAndRoundUp N B - 1) * B < N ∧
    divideAndRoundUp N B = Int.ceil ((N : ℚ) / (B : ℚ)) ∧
    vecadd_kernel_gridX N = divideAndRoundUp N 128 := by
  have hdiv : divideAndRoundUp N B = (N + B - 1) / B := by
    unfold divideAndRoundUp
    exact Int.tdiv_eq_ediv (by omega) (by omega)
  have hmod := Int.emod_add_ediv (N + B - 1) B
  have hlt := Int.emod_lt_of_pos (N + B - 1) hB
  have hnn := Int.emod_nonneg (N + B - 1) (ne_of_gt hB)
  have hcomm : (N + B - 1) / B * B = B * ((N + B - 1) / B) := Int.mul_comm _ _
  have h1 : N ≤ divideAndRoundUp N B * B := by rw [hdiv]; omega
  have h2 : (divideAndRoundUp N B - 1) * B < N := by
    rw [hdiv, Int.sub_mul, Int.one_mul]; omega
  refine ⟨h1, h2, ?_, ?_⟩
  · symm
    rw [Int.ceil_eq_iff]
    have hBq : (0 : ℚ) < (B : ℚ) := by exact_mod_cast hB
    constructor
    · rw [lt_div_iff₀ hBq]
      exact_mod_cast h2
    · rw [div_le_iff₀ hBq]
      exact_mod_cast h1
  · unfold vecadd_kernel_gridX
    simp

/-- C3 at the extent of the spec scenario: 300 elements, blocks of 128. -/
theorem divideAndRoundUp_ceil_witness :
    (300 : Int) ≤ divideAndRoundUp 300 128 * 128 ∧
    (divideAndRoundUp 300 128 - 1) * 128 < 300 ∧
    divideAndRoundUp 300 128 = Int.ceil (((300 : Int) : ℚ) / ((128 : Int) : ℚ)) ∧
    vecadd_kernel_gridX 300 = divideAndRoundUp 300 128 :=
  divideAndRoundUp_ceil 300 128 (by decide) (by decide)

/-! ## C6: construction of a view -/

/-- C6: constructing an array view with an extent that is 0 or negative fails
with `InvalidShape`. -/
theorem Construct_invalid_shape (pointer extent : Int) (h : extent ≤ 0) :
    array1.Construct pointer extent = Except.error ArrayError.InvalidShape := by
  unfold array1.Construct
  rw [if_pos h]

/-- C6 at extent 0 and at extent -5. -/
theorem Construct_invalid_shape_witness :
    array1.Construct 4096 0 = Except.error ArrayError.InvalidShape ∧
    array1.Construct 4096 (-5) = Except.error ArrayError.InvalidShape :=
  ⟨Construct_invalid_shape 4096 0 (by decide), Construct_invalid_shape 4096 (-5) (by decide)⟩

/-! ## C7: index derivation -/

/-- C7 (amended): for every thread id `t`, block id `b` and block size `B` whose
global id `g = t + b * B` satisfies `g + 1 < 2^31`, the kernel computes the
index `i = 1 + 1 * (t + b * B) = g + 1`; thread 0 of block 0 computes index 1
for every block size. -/
theorem kernel_index_derivation (t b B : Nat) (h : t + b * B + 1 < 2 ^ 31) :
    vecadd_kernel_i t b B = 1 + 1 * ((t : Int) + (b : Int) * (B : Int)) ∧
    vecadd_kernel_i t b B = ((t + b * B : Nat) : Int) + 1 ∧
    vecadd_kernel_i 0 0 B = 1 := by
  have h0 : vecadd_kernel_i 0 0 B = 1 := by
    rw [vecadd_kernel_i_eq, idxOfGid_small _ (by omega)]; simp
  rw [vecadd_kernel_i_eq, idxOfGid_small _ h]
  refine ⟨?_, rfl, h0⟩
  push_cast; ring

/-- C7 (amended) at thread 43 of block 2 with blocks of 128: index 300. -/
theorem kernel_index_derivation_witness :
    vecadd_kernel_i 43 2 128 = 1 + 1 * (((43 : Nat) : Int) + ((2 : Nat) : Int) * ((128 : Nat) : Int)) ∧
    vecadd_kernel_i 43 2 128 = ((43 + 2 * 128 : Nat) : Int) + 1 ∧
    vecadd_kernel_i 0 0 128 = 1 :=
  kernel_index_derivation 43 2 128 (by decide)

/-- C7 as stated fails: the last thread (127) of block 16777215 with blocks of
128 has global id `2^31 - 1`; the kernel computes `-2^31`, not `2^31`. -/
theorem kernel_index_wraps :
    vecadd_kernel_i 127 16777215 128 = -2147483648 ∧
    vecadd_kernel_i 127 16777215 128 ≠ 1 + 1 * ((127 : Int) + 16777215 * 128) := by
  decide

/-! ## C4: guarded access -/

theorem divideAndRoundUp_nat (n B : Nat) (hB : 0 < B) :
    divideAndRoundUp (n : Int) (B : Int) = (((n + B - 1) / B : Nat) : Int) := by
  unfold divideAndRoundUp
  rw [Int.tdiv_eq_ediv (by omega) (by omega)]
  have : ((n : Int) + (B : Int) - 1) = ((n + B - 1 : Nat) : Int) := by omega
  rw [this]
  norm_cast

theorem blocks_mul_bounds (n B : Nat) (hB : 0 < B) :
    n ≤ (n + B - 1) / B * B ∧ (n + B - 1) / B * B < n + B := by
  have h1 := Nat.div_add_mod (n + B - 1) B
  have h2 := Nat.mod_lt (n + B - 1) hB
  have h3 : (n + B - 1) / B * B = B * ((n + B - 1) / B) := Nat.mul_comm _ _
  omega

theorem gid_lt_of_mem (G B t b : Nat) (ht : t < B) (hb : b < G) : t + b * B < G * B := by
  have h1 : (b + 1) * B ≤ G * B := Nat.mul_le_mul_right B hb
  rw [Nat.succ_mul] at h1
  omega

theorem divideAndRoundUp_nonpos (N B : Int) (hN : N < 0) (hB : 0 < B) :
    divideAndRoundUp N B ≤ 0 := by
  unfold divideAndRoundUp
  by_cases h : 0 ≤ N + B - 1
  · rw [Int.tdiv_eq_zero_of_lt h (by omega)]
  · have h1 : N + B - 1 = -(-(N + B - 1)) := by ring
    have h2 := Int.tdiv_nonneg (by omega : 0 ≤ -(N + B - 1)) (le_of_lt hB)
    rw [h1, Int.neg_tdiv]
    omega

/-- Supporting result for C2: for every extent `N` and positive block size `B`, with
`numBlocks = divideAndRoundUp(N, B)`, such that the grid has fewer than `2^31`
threads (`numBlocks * B < 2^31`): every thread `(t, b)`, `t < B`,
`b < numBlocks`, that passes `loop_cond(i, N, 1)` has its index `i` in `1..N`,
and every index in `1..N` is the index of exactly one such thread, which passes
the predicate. -/
theorem full_disjoint_coverage (N : Int) (B : Nat) (hB : 0 < B)
    (hfit : divideAndRoundUp N (B : Int) * (B : Int) < 2 ^ 31) :
    (∀ t b : Nat, t < B → (b : Int) < divideAndRoundUp N B →
        loop_cond (vecadd_kernel_i t b B) N 1 = true →
        1 ≤ vecadd_kernel_i t b B ∧ vecadd_kernel_i t b B ≤ N) ∧
    (∀ i : Int, 1 ≤ i → i ≤ N →
        ∃! p : Nat × Nat, p.1 < B ∧ (p.2 : Int) < divideAndRoundUp N B ∧
          vecadd_kernel_i p.1 p.2 B = i ∧ loop_cond (vecadd_kernel_i p.1 p.2 B) N 1 = true) := by
  by_cases hN : 0 ≤ N
  swap
  · have hnp := divideAndRoundUp_nonpos N B (by omega) (by exact_mod_cast hB)
    constructor
    · intro t b _ hb
      omega
    · intro i h1 hi
      omega
  obtain ⟨n, rfl⟩ := Int.eq_ofNat_of_zero_le hN
  rw [divideAndRoundUp_nat n B hB] at hfit ⊢
  obtain ⟨hlo, hhi⟩ := blocks_mul_bounds n B hB
  have hfit2 : (n + B - 1) / B * B < 2 ^ 31 := by exact_mod_cast hfit
  have hidx : ∀ t b : Nat, t < B → b < (n + B - 1) / B →
      vecadd_kernel_i t b B = ((t + b * B : Nat) : Int) + 1 := by
    intro t b ht hb
    have := gid_lt_of_mem _ B t b ht hb
    rw [vecadd_kernel_i_eq, idxOfGid_small _ (by omega)]
  constructor
  · intro t b ht hb hc
    have hb2 : b < (n + B - 1) / B := by exact_mod_cast hb
    rw [hidx t b ht hb2] at hc ⊢
    simp [loop_cond] at hc
    omega
  · intro i h1 hi
    obtain ⟨k, rfl⟩ := Int.eq_ofNat_of_zero_le (by omega : 0 ≤ i)
    have hk1 : 1 ≤ k := by exact_mod_cast h1
    have hkn : k ≤ n := by exact_mod_cast hi
    have hdm := Nat.div_add_mod (k - 1) B
    have hml := Nat.mod_lt (k - 1) hB
    have hcomm : B * ((k - 1) / B) = (k - 1) / B * B := Nat.mul_comm _ _
    have hsum : (k - 1) % B + (k - 1) / B * B = k - 1 := by omega
    have hbk : (k - 1) / B < (n + B - 1) / B := by
      rw [Nat.div_lt_iff_lt_mul hB]; omega
    refine ⟨((k - 1) % B, (k - 1) / B), ⟨hml, by exact_mod_cast hbk, ?_, ?_⟩, ?_⟩
    · show vecadd_kernel_i ((k - 1) % B) ((k - 1) / B) B = (k : Int)
      rw [hidx _ _ hml hbk, hsum]; omega
    · show loop_cond (vecadd_kernel_i ((k - 1) % B) ((k - 1) / B) B) (n : Int) 1 = true
      rw [hidx _ _ hml hbk, hsum]
      simp [loop_cond]; omega
    · rintro ⟨t, b⟩ ⟨ht, hb, he, _⟩
      simp only at ht hb he
      have hb2 : b < (n + B - 1) / B := by exact_mod_cast hb
      rw [hidx t b ht hb2] at he
      have hg : t + b * B = k - 1 := by omega
      have hq : (k - 1) / B = b := by
        rw [← hg, Nat.add_mul_div_right _ _ hB, Nat.div_eq_of_lt ht, Nat.zero_add]
      have hr : (k - 1) % B = t := by
        rw [← hg, Nat.add_mul_mod_self_right, Nat.mod_eq_of_lt ht]
      rw [hq, hr]

/-- Scenario of the spec for C2: `N = 300`, `B = 128`, three
blocks; thread ids 0..383, indices 301..384 excluded, 1..300 hit once each. -/
theorem full_disjoint_coverage_witness :
    divideAndRoundUp 300 128 = 3 ∧
    (∀ t b : Nat, t < 128 → (b : Int) < divideAndRoundUp 300 ((128 : Nat) : Int) →
        loop_cond (vecadd_kernel_i t b 128) 300 1 = true →
        1 ≤ vecadd_kernel_i t b 128 ∧ vecadd_kernel_i t b 128 ≤ 300) ∧
    (∀ i : Int, 1 ≤ i → i ≤ 300 →
        ∃! p : Nat × Nat, p.1 < 128 ∧ (p.2 : Int) < divideAndRoundUp 300 ((128 : Nat) : Int) ∧
          vecadd_kernel_i p.1 p.2 128 = i ∧
          loop_cond (vecadd_kernel_i p.1 p.2 128) 300 1 = true) :=
  ⟨by decide, full_disjoint_coverage 300 128 (by decide) (by decide)⟩

/-- C2 (defect of the code at the extent `N = 2^31 - 1` with blocks of 128):
the formula gives `numBlocks = 2^24`, and for no number `G` of blocks at all do
the indices that the kernel computes and that satisfy `loop_cond(i, N, 1)`
cover exactly `1..N`, each once: with `G ≤ 16777215` no thread computes the
index `N`, and with `G ≥ 16777216` thread 127 of block 16777215 computes
`-2^31`, which passes the predicate and is not in `1..N`. -/
theorem coverage_fails_at_int_max :
    divideAndRoundUp 2147483647 128 = 16777216 ∧
    ∀ G : Int, ¬ ((∀ t b : Nat, t < 128 → (b : Int) < G →
          loop_cond (vecadd_kernel_i t b 128) 2147483647 1 = true →
          1 ≤ vecadd_kernel_i t b 128 ∧ vecadd_kernel_i t b 128 ≤ 2147483647) ∧
        (∀ i : Int, 1 ≤ i → i ≤ 2147483647 →
          ∃! p : Nat × Nat, p.1 < 128 ∧ (p.2 : Int) < G ∧
            vecadd_kernel_i p.1 p.2 128 = i ∧
            loop_cond (vecadd_kernel_i p.1 p.2 128) 2147483647 1 = true)) := by
  refine ⟨by decide, ?_⟩
  rintro G ⟨h1, h2⟩
  by_cases hG : G ≤ 16777215
  · obtain ⟨p, ⟨hp1, hp2, hp3, _⟩, _⟩ := h2 2147483647 (by decide) (by decide)
    rw [vecadd_kernel_i_eq, idxOfGid_small _ (by omega)] at hp3
    omega
  · have h := (h1 127 16777215 (by decide) (by omega) (by decide)).1
    revert h
    decide

/-! ## C9: frame of the launch -/

/-- Supporting result for C9: for every input with `1 ≤ N = y_d.size(1)`,
`N + 127 < 2^31` and with `x_d` and `y_d` in distinct buffers, every order in
which the threads of the derived grid are run returns, changes no memory cell
other than the elements `y_d(1..N)`, and so leaves every element of `x_d` as
it was; the launch, which is one of these orders, also leaves both views and
the scalar `a` as they were. -/
theorem launch_frame_in_range {α : Type} [Add α] [Mul α] (sharedmem : Int) (stream : Nat)
    (y_d : array1) (a : α) (x_d : array1) (dev : Device α)
    (hN : 1 ≤ y_d.n1) (hfit : y_d.n1 + 127 < 2 ^ 31) (hsep : x_d.separate y_d) :
    (∀ sched : List (Nat × Nat),
      sched.Perm (gridThreads (dim3.ofInt (vecadd_kernel_gridX y_d.n1)).x 128) →
      ∃ d, runThreads (vecadd_kernel y_d a x_d) 128 sched dev = Except.ok d ∧
        (∀ q : Int, (∀ i : Int, 1 ≤ i → i ≤ y_d.n1 → y_d.address i ≠ q) →
          d.mem q = dev.mem q) ∧
        (∀ j : Int, 1 ≤ j → j ≤ x_d.n1 →
          d.mem (x_d.address j) = dev.mem (x_d.address j))) ∧
    (∃ r, launch_vecadd_kernel_auto_ sharedmem stream y_d a x_d dev = Except.ok r ∧
      r.y_d = y_d ∧ r.a = a ∧ r.x_d = x_d ∧
      (∀ q : Int, (∀ i : Int, 1 ≤ i → i ≤ y_d.n1 → y_d.address i ≠ q) →
        r.dev.mem q = dev.mem q) ∧
      (∀ j : Int, 1 ≤ j → j ≤ x_d.n1 →
        r.dev.mem (x_d.address j) = dev.mem (x_d.address j))) := by
  obtain ⟨hG, -⟩ := gridX_bounds y_d.n1 hN hfit
  have hsched : ∀ sched : List (Nat × Nat),
      sched.Perm (gridThreads (dim3.ofInt (vecadd_kernel_gridX y_d.n1)).x 128) →
      ∃ d, runThreads (vecadd_kernel y_d a x_d) 128 sched dev = Except.ok d ∧
        (∀ q : Int, (∀ i : Int, 1 ≤ i → i ≤ y_d.n1 → y_d.address i ≠ q) →
          d.mem q = dev.mem q) ∧
        (∀ j : Int, 1 ≤ j → j ≤ x_d.n1 →
          d.mem (x_d.address j) = dev.mem (x_d.address j)) := by
    intro sched hperm
    have hframe : ∀ q : Int, (∀ i : Int, 1 ≤ i → i ≤ y_d.n1 → y_d.address i ≠ q) →
        (runIdx y_d a x_d
          (sched.map (fun p : Nat × Nat => vecadd_kernel_i p.1 p.2 128)) dev).mem q
          = dev.mem q := by
      intro q hq
      apply runIdx_mem_of_ne
      intro i hi hle
      exact hq i ((mem_sched_idx _ sched hperm hG i).1 hi).1 hle
    refine ⟨_, runThreads_eq_runIdx _ _ _ _ _ _, hframe, ?_⟩
    intro j h1 hj
    apply hframe
    intro i hi1 hi2
    unfold array1.separate at hsep
    simp only [address_eq]
    omega
  refine ⟨hsched, ?_⟩
  obtain ⟨d, hd, hl⟩ := launch_block_major sharedmem stream y_d a x_d dev
  obtain ⟨d2, hd2, h1, h2⟩ := hsched _ (List.Perm.refl _)
  have hdd : d = d2 := Except.ok.inj (hd.symm.trans hd2)
  subst hdd
  exact ⟨_, hl, rfl, rfl, rfl, h1, h2⟩

/-- Scenario of the spec for C9: the views, the scalar and the three elements
of `x_d` are unchanged. -/
theorem launch_frame_in_range_witness :
    ∃ r, launch_vecadd_kernel_auto_ 0 0 ⟨0, 3⟩ (2 : Int) ⟨100, 3⟩ ⟨scenario_mem, []⟩
          = Except.ok r ∧
      r.y_d = ⟨0, 3⟩ ∧ r.a = 2 ∧ r.x_d = ⟨100, 3⟩ ∧
      r.dev.mem 100 = 1 ∧ r.dev.mem 101 = 1 ∧ r.dev.mem 102 = 1 := by
  obtain ⟨r, hr, hy, ha, hx, _, h⟩ := (launch_frame_in_range 0 0 ⟨0, 3⟩ (2 : Int) ⟨100, 3⟩
    ⟨scenario_mem, []⟩ (by decide) (by decide) (Or.inr (by decide))).2
  exact ⟨r, hr, hy, ha, hx, h 1 (by decide) (by decide), h 2 (by decide) (by decide),
    h 3 (by decide) (by decide)⟩

/-- C9 (defect of the code at the extent `N = 2^31 - 1`): take `y_d` of that
extent at address `2^33` and `x_d` of the same extent at address
`2^33 - 2^31 - 1`, in distinct buffers, `a = 1` and every cell 1.  Whatever
number `G` of blocks of 128 threads is launched and in whatever order they
run, either `y_d(N)` is never written or some thread writes `y_d(-2^31)`,
which is not an element of `y_d`; and the launch with the grid the stub
derives changes `x_d(1)` from 1 to 2. -/
theorem frame_fails_at_int_max :
    (⟨6442450943, 2147483647⟩ : array1).separate ⟨8589934592, 2147483647⟩ ∧
    (∀ (G : Nat) (sched : List (Nat × Nat)), sched.Perm (gridThreads G 128) →
      ∃ d, runThreads (vecadd_kernel ⟨8589934592, 2147483647⟩ (1 : Int)
            ⟨6442450943, 2147483647⟩) 128 sched ⟨fun _ => 1, []⟩ = Except.ok d ∧
        (Access.write Param.y_d 2147483647 ∉ d.trace ∨
          Access.write Param.y_d (-2147483648) ∈ d.trace)) ∧
    ¬ (1 ≤ (-2147483648 : Int)) ∧
    (∃ r, launch_vecadd_kernel_auto_ 0 0 ⟨8589934592, 2147483647⟩ (1 : Int)
          ⟨6442450943, 2147483647⟩ ⟨fun _ => 1, []⟩ = Except.ok r ∧
      r.dev.mem ((⟨6442450943, 2147483647⟩ : array1).address 1) = 2 ∧
      (fun _ => (1 : Int)) ((⟨6442450943, 2147483647⟩ : array1).address 1) = 1) := by
  refine ⟨Or.inl (by decide), ?_, by decide, ?_⟩
  · intro G sched hperm
    obtain ⟨d, hd, -, ht⟩ := run_trace ⟨8589934592, 2147483647⟩ (1 : Int)
      ⟨6442450943, 2147483647⟩ sched ⟨fun _ => 1, []⟩
    refine ⟨d, hd, ?_⟩
    rw [ht]
    by_cases hG : G ≤ 16777215
    · left
      intro hmem
      rcases List.mem_append.1 hmem with h | h
      · exact absurd h (List.not_mem_nil _)
      · have h2 := ((mem_flatMap_write_y _ _ _).1 h).1
        have h3 := (mem_sched_idx G sched hperm (by omega) _).1 h2
        have h4 := h3.2
        push_cast at h4
        omega
    · right
      apply List.mem_append_right
      exact (mem_flatMap_write_y _ _ _).2
        ⟨wrapped_thread_in_sched G sched hperm (by omega), by decide⟩
  · have hidx : idxOfGid 2147483647 = -2147483648 := by decide
    obtain ⟨r, hr, h⟩ := launch_last_thread 0 0 ⟨8589934592, 2147483647⟩ (1 : Int)
      ⟨6442450943, 2147483647⟩ ⟨fun _ => 1, []⟩ 2147483647 (by decide) (by decide)
      (by rw [hidx]; decide)
      (by intro i h1 _; rw [hidx]; simp only [address_eq]; omega)
      (by intro i h1 _; rw [hidx]; simp only [address_eq]; omega)
    rw [hidx] at h
    exact ⟨r, hr, h, rfl⟩

/-! ## C10: reads of `x_d` -/

/-- Supporting result for C10: for every input with `1 ≤ N = y_d.size(1)` and
`N + 127 < 2^31`, every order in which the threads of the derived grid are run
returns and reads `x_d` at exactly the indices `1..N`; hence every read of
`x_d` lies in `[1, x_d.size(1)]` if and only if `y_d.size(1) ≤ x_d.size(1)`,
and whenever `x_d` is shorter than `y_d` some thread reads `x_d` out of
range. -/
theorem launch_reads_in_range {α : Type} [Add α] [Mul α]
    (y_d : array1) (a : α) (x_d : array1) (dev : Device α)
    (hN : 1 ≤ y_d.n1) (hfit : y_d.n1 + 127 < 2 ^ 31) (sched : List (Nat × Nat))
    (hperm : sched.Perm (gridThreads (dim3.ofInt (vecadd_kernel_gridX y_d.n1)).x 128)) :
    ∃ d ev, runThreads (vecadd_kernel y_d a x_d) 128 sched dev = Except.ok d ∧
      d.trace = dev.trace ++ ev ∧
      (∀ i : Int, Access.read Param.x_d i ∈ ev ↔ 1 ≤ i ∧ i ≤ y_d.n1) ∧
      ((∀ i : Int, Access.read Param.x_d i ∈ ev → 1 ≤ i ∧ i ≤ x_d.n1) ↔ y_d.n1 ≤ x_d.n1) ∧
      (x_d.n1 < y_d.n1 →
        ∃ i : Int, Access.read Param.x_d i ∈ ev ∧ ¬ (1 ≤ i ∧ i ≤ x_d.n1)) := by
  obtain ⟨hG, hGN⟩ := gridX_bounds y_d.n1 hN hfit
  obtain ⟨d, hd, -, ht⟩ := run_trace y_d a x_d sched dev
  have hreads : ∀ i : Int,
      Access.read Param.x_d i ∈
        (sched.map (fun p : Nat × Nat => vecadd_kernel_i p.1 p.2 128)).flatMap
          (stepTrace y_d) ↔ 1 ≤ i ∧ i ≤ y_d.n1 := by
    intro i
    rw [mem_flatMap_read_x,
      mem_sched_idx (u32_of_int (vecadd_kernel_gridX y_d.n1)) sched hperm hG]
    constructor
    · rintro ⟨⟨h1, _⟩, h3⟩
      exact ⟨h1, h3⟩
    · rintro ⟨h1, h2⟩
      exact ⟨⟨h1, by omega⟩, h2⟩
  refine ⟨d, _, hd, ht, hreads, ?_, ?_⟩
  · constructor
    · intro h
      exact (h y_d.n1 ((hreads _).2 ⟨hN, le_refl _⟩)).2
    · intro h i hi
      have := (hreads i).1 hi
      omega
  · intro h
    exact ⟨y_d.n1, (hreads _).2 ⟨hN, le_refl _⟩, by omega⟩

/-- An input for C10 with `x_d` shorter than `y_d` (extents 2 and 3): the
block-major order reads `x_d(3)`, outside `[1, 2]`. -/
theorem launch_reads_in_range_witness :
    ∃ d ev, runThreads (vecadd_kernel ⟨0, 3⟩ (2 : Int) ⟨100, 2⟩) 128 (gridThreads 1 128)
          ⟨scenario_mem, []⟩ = Except.ok d ∧
      d.trace = [] ++ ev ∧
      Access.read Param.x_d 3 ∈ ev ∧ ¬ ((1 : Int) ≤ 3 ∧ (3 : Int) ≤ 2) := by
  obtain ⟨d, ev, hd, ht, h1, _, _⟩ := launch_reads_in_range ⟨0, 3⟩ (2 : Int) ⟨100, 2⟩
    ⟨scenario_mem, []⟩ (by decide) (by decide) (gridThreads 1 128) (List.Perm.refl _)
  exact ⟨d, ev, hd, ht, (h1 3).2 (by decide), by decide⟩

/-- C10 (defect of the code at the extent `N = 2^31 - 1`): take `y_d` and `x_d`
both of that extent (so `y_d.size(1) ≤ x_d.size(1)`).  Whatever number `G` of
blocks of 128 threads is launched and in whatever order they run, the reads of
`x_d` are not exactly the indices `1..N`: either `x_d(N)` is never read or
`x_d(-2^31)` is read, which lies outside `[1, x_d.size(1)]`; the launch with
the grid the stub derives reads `x_d(-2^31)`. -/
theorem reads_of_x_fail_at_int_max :
    ((⟨8589934592, 2147483647⟩ : array1).n1 ≤ (⟨6442450943, 2147483647⟩ : array1).n1 ∧
      ¬ (1 ≤ (-2147483648 : Int))) ∧
    (∀ (G : Nat) (sched : List (Nat × Nat)), sched.Perm (gridThreads G 128) →
      ∃ d, runThreads (vecadd_kernel ⟨8589934592, 2147483647⟩ (1 : Int)
            ⟨6442450943, 2147483647⟩) 128 sched ⟨fun _ => 1, []⟩ = Except.ok d ∧
        (Access.read Param.x_d 2147483647 ∉ d.trace ∨
          Access.read Param.x_d (-2147483648) ∈ d.trace)) ∧
    (∃ r, launch_vecadd_kernel_auto_ 0 0 ⟨8589934592, 2147483647⟩ (1 : Int)
          ⟨6442450943, 2147483647⟩ ⟨fun _ => 1, []⟩ = Except.ok r ∧
      Access.read Param.x_d (-2147483648) ∈ r.dev.trace) := by
  refine ⟨⟨le_refl _, by decide⟩, ?_, ?_⟩
  · intro G sched hperm
    obtain ⟨d, hd, -, ht⟩ := run_trace ⟨8589934592, 2147483647⟩ (1 : Int)
      ⟨6442450943, 2147483647⟩ sched ⟨fun _ => 1, []⟩
    refine ⟨d, hd, ?_⟩
    rw [ht]
    by_cases hG : G ≤ 16777215
    · left
      intro hmem
      rcases List.mem_append.1 hmem with h | h
      · exact absurd h (List.not_mem_nil _)
      · have h2 := ((mem_flatMap_read_x _ _ _).1 h).1
        have h3 := (mem_sched_idx G sched hperm (by omega) _).1 h2
        have h4 := h3.2
        push_cast at h4
        omega
    · right
      apply List.mem_append_right
      exact (mem_flatMap_read_x _ _ _).2
        ⟨wrapped_thread_in_sched G sched hperm (by omega), by decide⟩
  · have hidx : idxOfGid 2147483647 = -2147483648 := by decide
    obtain ⟨r, hr, h⟩ := launch_thread_reads_x 0 0 ⟨8589934592, 2147483647⟩ (1 : Int)
      ⟨6442450943, 2147483647⟩ ⟨fun _ => 1, []⟩ 2147483647 (by decide)
      (by rw [hidx]; decide)
    rw [hidx] at h
    exact ⟨r, hr, h⟩

/-! ## C8: order independence -/

/-- C8 (amended): let `x_d` have at least the extent `N` of `y_d` and lie in a
buffer distinct from that of `y_d`.  Then the bodies of any two threads whose
global ids satisfy `t + b * B + 1 < 2^31` commute as steps on the memory; and
for every extent `N` with `1 ≤ N` and `N + 127 < 2^31`, every order in which
the launched threads are executed leaves the memory that the launch leaves. -/
theorem threads_order_independent {α : Type} [Add α] [Mul α] (y_d : array1) (a : α)
    (x_d : array1) (hx : y_d.n1 ≤ x_d.n1) (hsep : x_d.separate y_d) :
    (∀ (t b t2 b2 B : Nat) (dev : Device α),
        t + b * B + 1 < 2 ^ 31 → t2 + b2 * B + 1 < 2 ^ 31 →
        ∃ d1 d2,
          (vecadd_kernel y_d a x_d t b B dev).bind (vecadd_kernel y_d a x_d t2 b2 B)
            = Except.ok d1 ∧
          (vecadd_kernel y_d a x_d t2 b2 B dev).bind (vecadd_kernel y_d a x_d t b B)
            = Except.ok d2 ∧
          d1.mem = d2.mem) ∧
    (∀ (sharedmem : Int) (stream : Nat) (dev : Device α) (sched : List (Nat × Nat)),
        1 ≤ y_d.n1 → y_d.n1 + 127 < 2 ^ 31 →
        sched.Perm (gridThreads (dim3.ofInt (vecadd_kernel_gridX y_d.n1)).x 128) →
        ∃ d r, runThreads (vecadd_kernel y_d a x_d) 128 sched dev = Except.ok d ∧
          launch_vecadd_kernel_auto_ sharedmem stream y_d a x_d dev = Except.ok r ∧
          d.mem = r.dev.mem) := by
  constructor
  · intro t b t2 b2 B dev h1 h2
    refine ⟨threadStep y_d a x_d (vecadd_kernel_i t2 b2 B)
        (threadStep y_d a x_d (vecadd_kernel_i t b B) dev),
      threadStep y_d a x_d (vecadd_kernel_i t b B)
        (threadStep y_d a x_d (vecadd_kernel_i t2 b2 B) dev), ?_, ?_, ?_⟩
    · rw [vecadd_kernel_eq]; exact vecadd_kernel_eq _ _ _ _ _ _ _
    · rw [vecadd_kernel_eq]; exact vecadd_kernel_eq _ _ _ _ _ _ _
    · simp only [threadStep_mem]
      apply stepMem_comm y_d a x_d hx hsep
      · rw [vecadd_kernel_i_eq, idxOfGid_small _ h1]; omega
      · rw [vecadd_kernel_i_eq, idxOfGid_small _ h2]; omega
  · intro sharedmem stream dev sched hN hfit hperm
    obtain ⟨d, hd, hmem⟩ := schedule_mem_eq y_d a x_d dev sched hx hsep hN hfit hperm
    exact ⟨d, _, hd, launch_eq sharedmem stream y_d a x_d dev, hmem⟩

/-- C8 (amended) in the scenario of the spec: threads 0 and 1 of block 0
commute, and running the 128 launched threads in reverse order leaves the
memory that the launch leaves. -/
theorem threads_order_independent_witness :
    (∃ d1 d2,
        (vecadd_kernel ⟨0, 3⟩ (2 : Int) ⟨100, 3⟩ 0 0 128 ⟨scenario_mem, []⟩).bind
            (vecadd_kernel ⟨0, 3⟩ (2 : Int) ⟨100, 3⟩ 1 0 128) = Except.ok d1 ∧
        (vecadd_kernel ⟨0, 3⟩ (2 : Int) ⟨100, 3⟩ 1 0 128 ⟨scenario_mem, []⟩).bind
            (vecadd_kernel ⟨0, 3⟩ (2 : Int) ⟨100, 3⟩ 0 0 128) = Except.ok d2 ∧
        d1.mem = d2.mem) ∧
    (∃ d r, runThreads (vecadd_kernel ⟨0, 3⟩ (2 : Int) ⟨100, 3⟩) 128
          (gridThreads 1 128).reverse ⟨scenario_mem, []⟩ = Except.ok d ∧
        launch_vecadd_kernel_auto_ 0 0 ⟨0, 3⟩ (2 : Int) ⟨100, 3⟩ ⟨scenario_mem, []⟩
          = Except.ok r ∧
        d.mem = r.dev.mem) :=
  ⟨(threads_order_independent ⟨0, 3⟩ (2 : Int) ⟨100, 3⟩ (by decide) (Or.inr (by decide))).1
      0 0 1 0 128 ⟨scenario_mem, []⟩ (by decide) (by decide),
   (threads_order_independent ⟨0, 3⟩ (2 : Int) ⟨100, 3⟩ (by decide) (Or.inr (by decide))).2
      0 0 ⟨scenario_mem, []⟩ (gridThreads 1 128).reverse (by decide) (by decide)
      (List.reverse_perm (gridThreads 1 128))⟩

/-- C8 as stated fails: let `y_d` be the two cells 0..1 and `x_d` the two
cells 1..2 of a memory whose cells hold 0, 1, 2, and `a = 1`.  Thread 0 then
thread 1 leaves `y_d(1) = 1`, thread 1 then thread 0 leaves `y_d(1) = 3`; and
running the launched threads in reverse order leaves `y_d(1) = 3` where the
launch leaves `y_d(1) = 1`.  With views in distinct buffers the steps of two
threads still fail to commute when an index wraps: for `y_d` of extent
`2^31 - 1` at address `2^33` and `x_d` at address `2^33 - 2^31 - 1`, the last
thread of the last block writes the cell of `x_d(1)`, which thread 0 reads. -/
theorem order_matters_when_views_overlap :
    (∃ d1 d2,
        (vecadd_kernel ⟨0, 2⟩ (1 : Int) ⟨1, 2⟩ 0 0 128 ⟨address_mem, []⟩).bind
            (vecadd_kernel ⟨0, 2⟩ (1 : Int) ⟨1, 2⟩ 1 0 128) = Except.ok d1 ∧
        (vecadd_kernel ⟨0, 2⟩ (1 : Int) ⟨1, 2⟩ 1 0 128 ⟨address_mem, []⟩).bind
            (vecadd_kernel ⟨0, 2⟩ (1 : Int) ⟨1, 2⟩ 0 0 128) = Except.ok d2 ∧
        d1.mem ((⟨0, 2⟩ : array1).address 1) = 1 ∧
        d2.mem ((⟨0, 2⟩ : array1).address 1) = 3) ∧
    (∃ d r, runThreads (vecadd_kernel ⟨0, 2⟩ (1 : Int) ⟨1, 2⟩) 128
          (gridThreads 1 128).reverse ⟨address_mem, []⟩ = Except.ok d ∧
        launch_vecadd_kernel_auto_ 0 0 ⟨0, 2⟩ (1 : Int) ⟨1, 2⟩ ⟨address_mem, []⟩
          = Except.ok r ∧
        (gridThreads 1 128).reverse.Perm
          (gridThreads (dim3.ofInt (vecadd_kernel_gridX (⟨0, 2⟩ : array1).n1)).x 128) ∧
        d.mem ((⟨0, 2⟩ : array1).address 1) = 3 ∧
        r.dev.mem ((⟨0, 2⟩ : array1).address 1) = 1) ∧
    ((⟨6442450943, 2147483647⟩ : array1).separate ⟨8589934592, 2147483647⟩ ∧
      ∃ d1 d2,
        (vecadd_kernel ⟨8589934592, 2147483647⟩ (1 : Int) ⟨6442450943, 2147483647⟩ 127 16777215 128
            ⟨fun _ => 1, []⟩).bind
          (vecadd_kernel ⟨8589934592, 2147483647⟩ (1 : Int) ⟨6442450943, 2147483647⟩ 0 0 128)
            = Except.ok d1 ∧
        (vecadd_kernel ⟨8589934592, 2147483647⟩ (1 : Int) ⟨6442450943, 2147483647⟩ 0 0 128
            ⟨fun _ => 1, []⟩).bind
          (vecadd_kernel ⟨8589934592, 2147483647⟩ (1 : Int) ⟨6442450943, 2147483647⟩ 127 16777215 128)
            = Except.ok d2 ∧
        d1.mem ((⟨8589934592, 2147483647⟩ : array1).address 1) = 3 ∧
        d2.mem ((⟨8589934592, 2147483647⟩ : array1).address 1) = 2) := by
  refine ⟨?_, ?_, Or.inl (by decide),
    threadStep ⟨8589934592, 2147483647⟩ (1 : Int) ⟨6442450943, 2147483647⟩ (vecadd_kernel_i 0 0 128)
      (threadStep ⟨8589934592, 2147483647⟩ (1 : Int) ⟨6442450943, 2147483647⟩
        (vecadd_kernel_i 127 16777215 128) ⟨fun _ => 1, []⟩),
    threadStep ⟨8589934592, 2147483647⟩ (1 : Int) ⟨6442450943, 2147483647⟩
      (vecadd_kernel_i 127 16777215 128)
      (threadStep ⟨8589934592, 2147483647⟩ (1 : Int) ⟨6442450943, 2147483647⟩
        (vecadd_kernel_i 0 0 128) ⟨fun _ => 1, []⟩),
    by rw [vecadd_kernel_eq]; exact vecadd_kernel_eq _ _ _ _ _ _ _,
    by rw [vecadd_kernel_eq]; exact vecadd_kernel_eq _ _ _ _ _ _ _,
    by decide, by decide⟩
  · refine ⟨threadStep ⟨0, 2⟩ (1 : Int) ⟨1, 2⟩ (vecadd_kernel_i 1 0 128)
        (threadStep ⟨0, 2⟩ (1 : Int) ⟨1, 2⟩ (vecadd_kernel_i 0 0 128) ⟨address_mem, []⟩),
      threadStep ⟨0, 2⟩ (1 : Int) ⟨1, 2⟩ (vecadd_kernel_i 0 0 128)
        (threadStep ⟨0, 2⟩ (1 : Int) ⟨1, 2⟩ (vecadd_kernel_i 1 0 128) ⟨address_mem, []⟩),
      ?_, ?_, ?_, ?_⟩
    · rw [vecadd_kernel_eq]; exact vecadd_kernel_eq _ _ _ _ _ _ _
    · rw [vecadd_kernel_eq]; exact vecadd_kernel_eq _ _ _ _ _ _ _
    · decide
    · decide
  · refine ⟨_, _, runThreads_eq_runIdx _ _ _ _ _ _, launch_eq _ _ _ _ _ _,
      List.reverse_perm (gridThreads 1 128), ?_, ?_⟩
    · decide
    · decide

end gpufort

/-! ## C5: the forwarders -/

namespace bindcpp

/-- C5: for every implementation of the wrapped functions, every `a`, initial
`b` and state of the world, `mysubroutine2` leaves `b` as `mysubroutine1` does
and `myfunction2` returns the result and leaves `b` as `myfunction1` does; the
Fortran side is left in the state one call of the wrapped function leaves it in
(the wrapped function is called exactly once), and the only other effect is one
line on `std::cout`. -/
theorem forwarders_pass_through {σ : Type}
    (mysubroutine1 : Int → Int → World σ → Int × World σ)
    (myfunction1 : Int → Int → World σ → Int × Int × World σ)
    (a b : Int) (w : World σ) :
    (mysubroutine2 mysubroutine1 a b w).1 = (mysubroutine1 a b w).1 ∧
    (mysubroutine2 mysubroutine1 a b w).2.fortran = (mysubroutine1 a b w).2.fortran ∧
    (mysubroutine2 mysubroutine1 a b w).2.cout
      = (mysubroutine1 a b w).2.cout ++ [post_line (mysubroutine1 a b w).1] ∧
    (myfunction2 myfunction1 a b w).1 = (myfunction1 a b w).1 ∧
    (myfunction2 myfunction1 a b w).2.1 = (myfunction1 a b w).2.1 ∧
    (myfunction2 myfunction1 a b w).2.2.fortran = (myfunction1 a b w).2.2.fortran ∧
    (myfunction2 myfunction1 a b w).2.2.cout
      = (myfunction1 a b w).2.2.cout ++ [post_line (myfunction1 a b w).2.1] :=
  ⟨rfl, rfl, rfl, rfl, rfl, rfl, rfl⟩

/-- C5 at `a = 5`, `b = 0` with the counting implementations: the forwarders
leave `b = 5`, `myfunction2` returns 10, and exactly one call is counted. -/
theorem forwarders_pass_through_witness :
    (mysubroutine2 counting_subroutine1 5 0 ⟨0, []⟩).1 = 5 ∧
    (mysubroutine2 counting_subroutine1 5 0 ⟨0, []⟩).2.fortran = 1 ∧
    (myfunction2 counting_function1 5 0 ⟨0, []⟩).1 = 10 ∧
    (myfunction2 counting_function1 5 0 ⟨0, []⟩).2.1 = 5 ∧
    (myfunction2 counting_function1 5 0 ⟨0, []⟩).2.2.fortran = 1 := by
  have h := forwarders_pass_through counting_subroutine1 counting_function1 5 0 ⟨0, []⟩
  refine ⟨h.1.trans (by decide), h.2.1.trans (by decide), h.2.2.2.1.trans (by decide),
    h.2.2.2.2.1.trans (by decide), h.2.2.2.2.2.1.trans (by decide)⟩

end bindcpp
